import Mathlib

/-!
Formal model of the apple-bot task orchestration system.

Definitions are shallow embeddings of the JavaScript source under src/
(the Vue frontend store, websocket service and components) and, where the
backend Python modules referenced by the repository documentation are not
part of the source tree, models built from the specification document
(marked in their doc comments).
-/

/- ===== Gift card code formatting (src/unnamed/part_004, formatCode) ===== -/

/-- ASCII uppercase conversion performed by the toUpperCase call of the
source.  Only the ASCII range matters because the subsequent filter keeps
only A-Z and 0-9. -/
def jsToUpper (c : Char) : Char :=
  if 97 ≤ c.toNat ∧ c.toNat ≤ 122 then Char.ofNat (c.toNat - 32) else c

/-- Tests whether a character is an ASCII uppercase letter or an ASCII
digit, the character class kept by the regular expression of formatCode. -/
def isCodeChar (c : Char) : Bool :=
  (decide (65 ≤ c.toNat) && decide (c.toNat ≤ 90)) ||
    (decide (48 ≤ c.toNat) && decide (c.toNat ≤ 57))

/-- Embedding of formatCode from the multi-card form: the input value is
uppercased, every character outside A-Z0-9 is removed, and the result is
truncated to 16 characters. -/
def formatCode (s : String) : String :=
  String.mk (((s.data.map jsToUpper).filter isCodeChar).take 16)

/-- Single-pass characterisation of the stored code: walk the raw input,
uppercase each character, keep it when it lies in A-Z0-9, and stop after
16 kept characters. -/
def collectCode : Nat → List Char → List Char
  | _, [] => []
  | 0, _ :: _ => []
  | fuel + 1, c :: cs =>
    if isCodeChar (jsToUpper c) then jsToUpper c :: collectCode fuel cs
    else collectCode (fuel + 1) cs

/-- The stored code pattern of the claim: at most 16 characters, all of
them ASCII uppercase letters or digits. -/
def matchesCodePattern (s : String) : Bool :=
  decide (s.length ≤ 16) && s.data.all isCodeChar

theorem take_filter_map_eq_collectCode (l : List Char) :
    ∀ fuel, ((l.map jsToUpper).filter isCodeChar).take fuel = collectCode fuel l := by
  induction l with
  | nil => intro fuel; simp [collectCode]
  | cons c cs ih =>
    intro fuel
    by_cases h : isCodeChar (jsToUpper c) = true
    · cases fuel with
      | zero => simp [collectCode]
      | succ n => simp [collectCode, h, List.filter_cons, ih n]
    · cases fuel with
      | zero => simp [collectCode]
      | succ n =>
        simp only [List.map_cons, List.filter_cons, h, Bool.false_eq_true, if_false,
          collectCode, ih (n + 1)]

/-- C10: for every input string typed into a gift-card code field, the
stored code after formatCode is the single pass that uppercases, keeps
only ASCII uppercase letters and digits, and stops at 16 characters; and
every stored code has length at most 16 with all characters in A-Z0-9. -/
theorem formatCode_stored_code_spec (s : String) :
    (formatCode s).data = collectCode 16 s.data ∧
      matchesCodePattern (formatCode s) = true := by
  constructor
  · show ((s.data.map jsToUpper).filter isCodeChar).take 16 = collectCode 16 s.data
    exact take_filter_map_eq_collectCode s.data 16
  · unfold matchesCodePattern formatCode
    apply Bool.and_eq_true_iff.mpr
    constructor
    · apply decide_eq_true
      show (String.mk _).length ≤ 16
      simp [String.length]
    · apply List.all_eq_true.mpr
      intro c hc
      have hc2 := List.mem_of_mem_take hc
      exact (List.mem_filter.mp hc2).2

/-- Concrete evaluation of the formatCode theorem on a sample input. -/
theorem formatCode_stored_code_spec_witness :
    (formatCode "x7yv-tgtl vr8f!j54z99").data =
        collectCode 16 "x7yv-tgtl vr8f!j54z99".data ∧
      matchesCodePattern (formatCode "x7yv-tgtl vr8f!j54z99") = true :=
  formatCode_stored_code_spec "x7yv-tgtl vr8f!j54z99"

/- ===== Vuex store ADD_TASK mutation (src/frontend/src/store/index.js) ===== -/

/-- A task object held in the Vuex store: an identifier plus the rest of
the record, abstracted by a type parameter. -/
structure StoreTask (α : Type) where
  id : String
  fields : α
deriving Repr, DecidableEq

/-- Embedding of the ADD_TASK mutation: findIndex on the task id; when an
entry with the same id exists it is replaced in place by splice, otherwise
the task is pushed at the end. -/
def addTask {α : Type} (tasks : List (StoreTask α)) (task : StoreTask α) :
    List (StoreTask α) :=
  match tasks.findIdx? (fun t => t.id == task.id) with
  | some i => tasks.set i task
  | none => tasks ++ [task]

/-- Recursive characterisation of ADD_TASK: replace the first entry whose
id matches, otherwise append. -/
def addTaskRec {α : Type} : List (StoreTask α) → StoreTask α → List (StoreTask α)
  | [], task => [task]
  | t :: ts, task =>
    if t.id == task.id then task :: ts else t :: addTaskRec ts task

theorem addTask_eq_addTaskRec {α : Type} (l : List (StoreTask α)) (t : StoreTask α) :
    addTask l t = addTaskRec l t := by
  induction l with
  | nil => rfl
  | cons x xs ih =>
    by_cases h : x.id == t.id
    · simp [addTask, addTaskRec, List.findIdx?_cons, h]
    · simp only [addTask] at ih ⊢
      rw [List.findIdx?_cons]
      simp only [h, Bool.false_eq_true, if_false]
      rw [List.findIdx?_succ]
      cases hfind : List.findIdx? (fun u => u.id == t.id) xs with
      | none =>
        rw [hfind] at ih
        simp only at ih
        simp [addTaskRec, h, ih]
      | some i =>
        rw [hfind] at ih
        simp only at ih
        simp [addTaskRec, h, List.set, ih]

theorem addTaskRec_id_mem {α : Type} (l : List (StoreTask α)) (t : StoreTask α)
    (x : String) :
    x ∈ (addTaskRec l t).map StoreTask.id → x = t.id ∨ x ∈ l.map StoreTask.id := by
  induction l with
  | nil =>
    intro hx
    left
    simpa [addTaskRec] using hx
  | cons y ys ih =>
    intro hx
    by_cases h : y.id == t.id
    · rw [show addTaskRec (y :: ys) t = t :: ys from by simp [addTaskRec, h]] at hx
      rw [List.map_cons, List.mem_cons] at hx
      rcases hx with h1 | h1
      · exact Or.inl h1
      · exact Or.inr (by rw [List.map_cons, List.mem_cons]; exact Or.inr h1)
    · rw [show addTaskRec (y :: ys) t = y :: addTaskRec ys t from by
        simp [addTaskRec, h]] at hx
      rw [List.map_cons, List.mem_cons] at hx
      rcases hx with h1 | h1
      · exact Or.inr (by rw [List.map_cons, List.mem_cons]; exact Or.inl h1)
      · rcases ih h1 with h2 | h2
        · exact Or.inl h2
        · exact Or.inr (by rw [List.map_cons, List.mem_cons]; exact Or.inr h2)

theorem addTaskRec_idem {α : Type} (l : List (StoreTask α)) (t : StoreTask α) :
    addTaskRec (addTaskRec l t) t = addTaskRec l t := by
  induction l with
  | nil => simp [addTaskRec]
  | cons x xs ih =>
    by_cases h : x.id == t.id
    · simp [addTaskRec, h]
    · simp [addTaskRec, h, ih]

theorem addTaskRec_nodup {α : Type} (l : List (StoreTask α)) (t : StoreTask α)
    (hl : (l.map StoreTask.id).Nodup) :
    ((addTaskRec l t).map StoreTask.id).Nodup := by
  induction l with
  | nil => simp [addTaskRec]
  | cons x xs ih =>
    rw [List.map_cons, List.nodup_cons] at hl
    by_cases h : x.id == t.id
    · have hid : x.id = t.id := by simpa using h
      simp only [addTaskRec, h, if_pos, List.map_cons, List.nodup_cons]
      exact ⟨hid ▸ hl.1, hl.2⟩
    · simp only [addTaskRec, h, Bool.false_eq_true, if_false, List.map_cons,
        List.nodup_cons]
      refine ⟨?_, ih hl.2⟩
      intro hmem
      rcases addTaskRec_id_mem xs t x.id hmem with h2 | h2
      · exact absurd h2 (by simpa using h)
      · exact hl.1 h2

/-- C9: the ADD_TASK mutation is idempotent, and it preserves pairwise
distinctness of the stored task ids, because an already present id is
replaced in place rather than appended. -/
theorem ADD_TASK_idempotent_and_nodup {α : Type} (l : List (StoreTask α))
    (t : StoreTask α) :
    addTask (addTask l t) t = addTask l t ∧
      ((l.map StoreTask.id).Nodup → ((addTask l t).map StoreTask.id).Nodup) := by
  constructor
  · rw [addTask_eq_addTaskRec, addTask_eq_addTaskRec, addTaskRec_idem]
  · intro hl
    rw [addTask_eq_addTaskRec]
    exact addTaskRec_nodup l t hl

/-- Concrete evaluation of the ADD_TASK theorem: adding a task whose id is
already present twice equals adding it once, and distinct ids stay
distinct. -/
theorem ADD_TASK_idempotent_and_nodup_witness :
    (addTask (addTask [⟨"a", 0⟩, ⟨"b", 1⟩] (⟨"a", 7⟩ : StoreTask Nat)) ⟨"a", 7⟩ =
        addTask [⟨"a", 0⟩, ⟨"b", 1⟩] ⟨"a", 7⟩) ∧
      ((addTask [⟨"a", 0⟩, ⟨"b", 1⟩] (⟨"a", 7⟩ : StoreTask Nat)).map
          StoreTask.id).Nodup :=
  ⟨(ADD_TASK_idempotent_and_nodup [⟨"a", 0⟩, ⟨"b", 1⟩] ⟨"a", 7⟩).1,
    (ADD_TASK_idempotent_and_nodup [⟨"a", 0⟩, ⟨"b", 1⟩] ⟨"a", 7⟩).2 (by decide)⟩

/- ===== Task status lifecycle (src/unnamed/part_000 and the spec) ===== -/

/-- A task object as the test page of the frontend holds it: an id, a
status string and a human readable status message. -/
structure FrontTask where
  id : String
  status : String
  statusMessage : String
deriving Repr, DecidableEq

/-- Embedding of the insufficient balance socket handler of the test page:
when the event carries the id of the current task, the status is set to the
waiting-for-gift-card status and the status message is rebuilt from the
currency and the remaining amount of the payload. -/
def handleInsufficientBalance (task : FrontTask)
    (eventTaskId currency remainingAmount : String) : FrontTask :=
  if eventTaskId == task.id then
    { task with
        status := "waiting_for_gift_card",
        statusMessage := "余额不足，还需要 " ++ currency ++ remainingAmount }
  else task

/-- The fixed task status enumeration of the specification: the scheduler
statuses of section 4.1 together with the terminal statuses of
section 4.2. -/
def taskStatusEnum : List String :=
  ["pending", "queued", "running", "completed", "failed", "cancelled"]

/-- The status keys known to the status class map of the test page. -/
def frontendStatusKeys : List String :=
  ["pending", "running", "completed", "failed", "waiting_gift_card_input"]

/-- The waiting statuses the frontend observes while a task is suspended
awaiting gift card input. -/
def isWaitingStatus (s : String) : Bool :=
  s == "waiting_for_gift_card" || s == "waiting_gift_card_input"

/-- The terminal task statuses. -/
def isTerminalStatus (s : String) : Bool :=
  s == "completed" || s == "failed" || s == "cancelled"

/-- The status enumeration extended with the waiting statuses that the
source actually uses. -/
def extendedStatusEnum : List String :=
  taskStatusEnum ++ ["waiting_for_gift_card", "waiting_gift_card_input"]

/-- Modelled from the spec: the task lifecycle transition table of the
scheduler and worker (backend task_manager.py and models/task.py are not
part of the source tree), extended with the waiting statuses that the
insufficient balance handler and the status class map of the test page
observe. -/
def statusTransitions : List (String × String) :=
  [("pending", "queued"), ("pending", "cancelled"),
   ("queued", "running"), ("queued", "cancelled"),
   ("running", "waiting_for_gift_card"), ("running", "waiting_gift_card_input"),
   ("running", "completed"), ("running", "failed"), ("running", "cancelled"),
   ("waiting_for_gift_card", "running"), ("waiting_for_gift_card", "failed"),
   ("waiting_for_gift_card", "cancelled"),
   ("waiting_gift_card_input", "running"), ("waiting_gift_card_input", "failed"),
   ("waiting_gift_card_input", "cancelled")]

/-- One lifecycle transition, tested against the transition table. -/
def statusNext (s t : String) : Bool :=
  statusTransitions.contains (s, t)

/-- Tests that consecutive elements of a list are related by f. -/
def chainB (f : String → String → Bool) : List String → Bool
  | [] => true
  | [_] => true
  | a :: b :: rest => f a b && chainB f (b :: rest)

/-- A status history is valid when it starts at pending and each
consecutive pair is a lifecycle transition. -/
def validStatusHistory (h : List String) : Bool :=
  match h with
  | [] => false
  | s :: _ => s == "pending" && chainB statusNext h

/-- C3 counterexample: the insufficient balance handler stores the status
waiting_for_gift_card, which lies outside the fixed status enumeration of
the specification, as does the waiting_gift_card_input key of the status
class map. -/
theorem status_outside_enum_counterexample :
    (handleInsufficientBalance ⟨"task_123", "running", ""⟩
        "task_123" "£" "10.50").status = "waiting_for_gift_card" ∧
      "waiting_for_gift_card" ∉ taskStatusEnum ∧
      "waiting_gift_card_input" ∈ frontendStatusKeys ∧
      "waiting_gift_card_input" ∉ taskStatusEnum := by
  refine ⟨rfl, by decide, by decide, by decide⟩

theorem statusNext_target (a b : String) (hab : statusNext a b = true) :
    b ∈ extendedStatusEnum ∧ b ≠ "pending" ∧ isTerminalStatus a = false := by
  have hmem : (a, b) ∈ statusTransitions := by
    simpa [statusNext] using hab
  have hall : ∀ pr ∈ statusTransitions,
      pr.2 ∈ extendedStatusEnum ∧ pr.2 ≠ "pending" ∧
        isTerminalStatus pr.1 = false := by decide
  exact hall (a, b) hmem

theorem chainB_cons (f : String → String → Bool) (a b : String) (rest : List String)
    (h : chainB f (a :: b :: rest) = true) :
    f a b = true ∧ chainB f (b :: rest) = true := by
  simpa [chainB, Bool.and_eq_true] using h

theorem chain_status_tail_props :
    ∀ (rest : List String) (a : String), chainB statusNext (a :: rest) = true →
      ∀ s ∈ rest, s ∈ extendedStatusEnum ∧ s ≠ "pending" := by
  intro rest
  induction rest with
  | nil =>
    intro a _ s hs
    exact absurd hs (List.not_mem_nil s)
  | cons b rest2 ih =>
    intro a hchain s hs
    obtain ⟨hab, hrest⟩ := chainB_cons statusNext a b rest2 hchain
    rcases List.mem_cons.mp hs with hs1 | hs1
    · obtain ⟨h1, h2, _⟩ := statusNext_target a b hab
      exact hs1 ▸ ⟨h1, h2⟩
    · exact ih b hrest s hs1

theorem chain_status_terminal_count :
    ∀ (rest : List String) (a : String), chainB statusNext (a :: rest) = true →
      (a :: rest).countP (fun s => isTerminalStatus s) ≤ 1 := by
  intro rest
  induction rest with
  | nil =>
    intro a _
    exact le_trans (List.countP_le_length _) (by simp)
  | cons b rest2 ih =>
    intro a hchain
    obtain ⟨hab, hrest⟩ := chainB_cons statusNext a b rest2 hchain
    obtain ⟨_, _, hterm⟩ := statusNext_target a b hab
    rw [List.countP_cons]
    simp only [hterm]
    simpa using ih b hrest

/-- C3 amended: every valid status history starts at pending, holds only
statuses of the extended enumeration, never revisits pending after leaving
it, and holds at most one terminal status, exactly one when the history
ends in a terminal status. -/
theorem statusHistory_valid_path (h : List String)
    (hv : validStatusHistory h = true) :
    (∀ s ∈ h, s ∈ extendedStatusEnum) ∧
      (∀ s ∈ h.tail, s ≠ "pending") ∧
      h.countP (fun s => isTerminalStatus s) ≤ 1 ∧
      (∀ x, h.getLast? = some x → isTerminalStatus x = true →
        h.countP (fun s => isTerminalStatus s) = 1) := by
  match h with
  | [] => exact absurd hv (by simp [validStatusHistory])
  | a :: rest =>
    have hv2 : a = "pending" ∧ chainB statusNext (a :: rest) = true := by
      simpa [validStatusHistory, Bool.and_eq_true] using hv
    obtain ⟨rfl, hchain⟩ := hv2
    have htail := chain_status_tail_props rest "pending" hchain
    have hcount := chain_status_terminal_count rest "pending" hchain
    refine ⟨?_, ?_, hcount, ?_⟩
    · intro s hs
      rcases List.mem_cons.mp hs with hs1 | hs1
      · subst hs1; decide
      · exact (htail s hs1).1
    · intro s hs
      exact (htail s (by simpa using hs)).2
    · intro x hlast hxterm
      have hxmem : x ∈ "pending" :: rest := List.mem_of_getLast?_eq_some hlast
      have hpos : 0 < ("pending" :: rest).countP (fun s => isTerminalStatus s) :=
        List.countP_pos_iff.mpr ⟨x, hxmem, hxterm⟩
      omega

/-- Concrete run of the amended status history theorem on the lifecycle
pending, queued, running, completed. -/
theorem statusHistory_valid_path_witness :
    (∀ s ∈ ["pending", "queued", "running", "completed"],
        s ∈ extendedStatusEnum) ∧
      (∀ s ∈ (["pending", "queued", "running", "completed"] : List String).tail,
        s ≠ "pending") ∧
      (["pending", "queued", "running", "completed"] : List String).countP
          (fun s => isTerminalStatus s) ≤ 1 ∧
      (∀ x, (["pending", "queued", "running", "completed"] : List String).getLast? =
            some x → isTerminalStatus x = true →
        (["pending", "queued", "running", "completed"] : List String).countP
            (fun s => isTerminalStatus s) = 1) :=
  statusHistory_valid_path ["pending", "queued", "running", "completed"] (by decide)

/- ===== Worker workflow steps (TaskList.vue getStepText, part_006 flow) ===== -/

/-- The workflow steps of the source, in order: the step map of the task
list component and the documented seven stage execution flow. -/
def codeWorkflowSteps : List String :=
  ["initializing", "navigating", "configuring_product", "adding_to_bag",
   "checkout", "applying_gift_card", "finalizing"]

/-- The step-to-progress table of the documented execution flow. -/
def codeStepProgress : List (String × Nat) :=
  [("initializing", 10), ("navigating", 20), ("configuring_product", 40),
   ("adding_to_bag", 60), ("checkout", 80), ("applying_gift_card", 90),
   ("finalizing", 100)]

/-- The terminal outcomes of a worker run. -/
def workerTerminalStates : List String := ["completed", "failed", "cancelled"]

/-- All states a worker run can hold. -/
def workerStateUniverse : List String := codeWorkflowSteps ++ workerTerminalStates

/-- Position of a state in the required order; terminal failure states sit
past every workflow step. -/
def stepIndex (s : String) : Nat :=
  if s == "initializing" then 0
  else if s == "navigating" then 1
  else if s == "configuring_product" then 2
  else if s == "adding_to_bag" then 3
  else if s == "checkout" then 4
  else if s == "applying_gift_card" then 5
  else if s == "finalizing" then 6
  else if s == "completed" then 7
  else 9

/-- Modelled from the spec and the documented flow: the worker transition
table (backend automation_service.py is not part of the source tree).  The
gift card step may repeat; the gift card step is skipped when no payment
code is configured; failure and cancellation may interrupt any workflow
step. -/
def stepTransitions : List (String × String) :=
  [("initializing", "navigating"),
   ("navigating", "configuring_product"),
   ("configuring_product", "adding_to_bag"),
   ("adding_to_bag", "checkout"),
   ("checkout", "applying_gift_card"), ("checkout", "finalizing"),
   ("applying_gift_card", "applying_gift_card"),
   ("applying_gift_card", "finalizing"),
   ("finalizing", "completed"),
   ("initializing", "failed"), ("initializing", "cancelled"),
   ("navigating", "failed"), ("navigating", "cancelled"),
   ("configuring_product", "failed"), ("configuring_product", "cancelled"),
   ("adding_to_bag", "failed"), ("adding_to_bag", "cancelled"),
   ("checkout", "failed"), ("checkout", "cancelled"),
   ("applying_gift_card", "failed"), ("applying_gift_card", "cancelled"),
   ("finalizing", "failed"), ("finalizing", "cancelled")]

/-- One worker transition, tested against the transition table. -/
def stepNext (s t : String) : Bool :=
  stepTransitions.contains (s, t)

/-- A worker run is a state sequence starting at initializing whose
consecutive pairs are worker transitions. -/
def workerRun (r : List String) : Bool :=
  match r with
  | [] => false
  | s :: _ => s == "initializing" && chainB stepNext r

/-- The full successful run of the documented flow. -/
def canonicalWorkerRun : List String := codeWorkflowSteps ++ ["completed"]

/-- C4 counterexample: the canonical successful run of the machine of the
source never visits authenticating, address_entry or a step named
gift_card_application; those steps do not exist in the step map of the
source, whose gift card step is named applying_gift_card. -/
theorem worker_steps_counterexample :
    workerRun canonicalWorkerRun = true ∧
      "authenticating" ∉ canonicalWorkerRun ∧
      "address_entry" ∉ canonicalWorkerRun ∧
      "gift_card_application" ∉ canonicalWorkerRun ∧
      "authenticating" ∉ codeWorkflowSteps ∧
      "address_entry" ∉ codeWorkflowSteps ∧
      "gift_card_application" ∉ codeWorkflowSteps ∧
      "applying_gift_card" ∈ codeWorkflowSteps := by
  refine ⟨by decide, by decide, by decide, by decide, by decide, by decide,
    by decide, by decide⟩

theorem stepNext_props (a b : String) (hab : stepNext a b = true) :
    stepIndex a ≤ stepIndex b ∧
      (a ≠ "applying_gift_card" → stepIndex a < stepIndex b) ∧
      b ∈ workerStateUniverse ∧ a ∈ codeWorkflowSteps := by
  have hmem : (a, b) ∈ stepTransitions := by
    simpa [stepNext] using hab
  have hall : ∀ pr ∈ stepTransitions,
      stepIndex pr.1 ≤ stepIndex pr.2 ∧
        (pr.1 ≠ "applying_gift_card" → stepIndex pr.1 < stepIndex pr.2) ∧
        pr.2 ∈ workerStateUniverse ∧ pr.1 ∈ codeWorkflowSteps := by decide
  exact hall (a, b) hmem

theorem chain_step_tail_mem :
    ∀ (rest : List String) (a : String), chainB stepNext (a :: rest) = true →
      ∀ s ∈ rest, s ∈ workerStateUniverse := by
  intro rest
  induction rest with
  | nil =>
    intro a _ s hs
    exact absurd hs (List.not_mem_nil s)
  | cons b rest2 ih =>
    intro a hchain s hs
    obtain ⟨hab, hrest⟩ := chainB_cons stepNext a b rest2 hchain
    rcases List.mem_cons.mp hs with hs1 | hs1
    · exact hs1 ▸ (stepNext_props a b hab).2.2.1
    · exact ih b hrest s hs1

theorem chain_step_lower_bound :
    ∀ (rest : List String) (a : String), chainB stepNext (a :: rest) = true →
      ∀ s ∈ rest, stepIndex a ≤ stepIndex s := by
  intro rest
  induction rest with
  | nil =>
    intro a _ s hs
    exact absurd hs (List.not_mem_nil s)
  | cons b rest2 ih =>
    intro a hchain s hs
    obtain ⟨hab, hrest⟩ := chainB_cons stepNext a b rest2 hchain
    rcases List.mem_cons.mp hs with hs1 | hs1
    · exact hs1 ▸ (stepNext_props a b hab).1
    · exact le_trans (stepNext_props a b hab).1 (ih b hrest s hs1)

theorem chain_step_strict_bound (rest : List String) (a : String)
    (hchain : chainB stepNext (a :: rest) = true)
    (ha : a ≠ "applying_gift_card") :
    ∀ s ∈ rest, stepIndex a < stepIndex s := by
  cases rest with
  | nil =>
    intro s hs
    exact absurd hs (List.not_mem_nil s)
  | cons b rest2 =>
    intro s hs
    obtain ⟨hab, hrest⟩ := chainB_cons stepNext a b rest2 hchain
    have hab2 := (stepNext_props a b hab).2.1 ha
    rcases List.mem_cons.mp hs with hs1 | hs1
    · exact hs1 ▸ hab2
    · exact lt_of_lt_of_le hab2 (chain_step_lower_bound rest2 b hrest s hs1)

theorem chain_step_count :
    ∀ (rest : List String) (a : String), chainB stepNext (a :: rest) = true →
      ∀ x, x ≠ "applying_gift_card" → (a :: rest).count x ≤ 1 := by
  intro rest
  induction rest with
  | nil =>
    intro a _ x _
    exact le_trans (List.count_le_length _ _) (by simp)
  | cons b rest2 ih =>
    intro a hchain x hx
    obtain ⟨hab, hrest⟩ := chainB_cons stepNext a b rest2 hchain
    by_cases hax : x = a
    · subst hax
      rw [List.count_cons_self]
      have hnotmem : x ∉ b :: rest2 := by
        intro hmem
        exact lt_irrefl (stepIndex x)
          (chain_step_strict_bound (b :: rest2) x hchain hx x hmem)
      rw [List.count_eq_zero.mpr hnotmem]
    · rw [List.count_cons_of_ne (fun h2 => hax h2)]
      exact ih b hrest x hx

/-- C4 amended: every worker run starts at initializing, holds only the
workflow steps and terminal outcomes of the source, visits states in the
required order (the position in the order is monotone along the run), and
visits every state other than the repeatable gift card step at most
once. -/
theorem workerRun_step_order (r : List String) (hr : workerRun r = true) :
    (∀ s ∈ r, s ∈ workerStateUniverse) ∧
      List.Chain' (fun a b => stepIndex a ≤ stepIndex b) r ∧
      (∀ x, x ≠ "applying_gift_card" → r.count x ≤ 1) := by
  match r with
  | [] => exact absurd hr (by simp [workerRun])
  | a :: rest =>
    have hv2 : a = "initializing" ∧ chainB stepNext (a :: rest) = true := by
      simpa [workerRun, Bool.and_eq_true] using hr
    obtain ⟨rfl, hchain⟩ := hv2
    refine ⟨?_, ?_, ?_⟩
    · intro s hs
      rcases List.mem_cons.mp hs with hs1 | hs1
      · subst hs1; decide
      · exact chain_step_tail_mem rest "initializing" hchain s hs1
    · clear hr
      generalize "initializing" = a0 at hchain ⊢
      revert a0
      induction rest with
      | nil => intro a0 _; simp
      | cons b rest2 ih =>
        intro a0 hchain
        obtain ⟨hab, hrest⟩ := chainB_cons stepNext a0 b rest2 hchain
        rw [List.chain'_cons]
        exact ⟨(stepNext_props a0 b hab).1, ih b hrest⟩
    · intro x hx
      exact chain_step_count rest "initializing" hchain x hx

/-- Concrete run of the amended worker order theorem: a run that applies
the gift card step twice before finalizing. -/
theorem workerRun_step_order_witness :
    (∀ s ∈ ["initializing", "navigating", "configuring_product",
        "adding_to_bag", "checkout", "applying_gift_card",
        "applying_gift_card", "finalizing", "completed"],
        s ∈ workerStateUniverse) ∧
      List.Chain' (fun a b => stepIndex a ≤ stepIndex b)
        ["initializing", "navigating", "configuring_product", "adding_to_bag",
         "checkout", "applying_gift_card", "applying_gift_card", "finalizing",
         "completed"] ∧
      (∀ x, x ≠ "applying_gift_card" →
        (["initializing", "navigating", "configuring_product", "adding_to_bag",
          "checkout", "applying_gift_card", "applying_gift_card", "finalizing",
          "completed"] : List String).count x ≤ 1) :=
  workerRun_step_order
    ["initializing", "navigating", "configuring_product", "adding_to_bag",
     "checkout", "applying_gift_card", "applying_gift_card", "finalizing",
     "completed"] (by decide)

/- ===== Scheduler (Task Manager): admission control and submission ===== -/

/-- A task as the scheduler tracks it. -/
structure SchedTask where
  id : Nat
  status : String
  priority : Nat
deriving Repr, DecidableEq

/-- A task creation input: name, target resource url, ordered payment
codes, an explicit no-payment marker, and a priority. -/
structure TaskConfig where
  name : String
  url : String
  giftCards : List String
  noPayment : Bool
  priority : Nat
deriving Repr, DecidableEq

/-- Modelled from the spec: the scheduler state (backend task_manager.py is
not part of the source tree): the concurrency ceiling, the task table and
the next fresh task id. -/
structure Scheduler where
  maxConcurrent : Nat
  tasks : List SchedTask
  nextId : Nat
deriving Repr, DecidableEq

/-- The default concurrency ceiling: MAX_CONCURRENT_TASKS = 3 in the
documented backend configuration and max_concurrent: 3 in the frontend
store. -/
def defaultMaxConcurrent : Nat := 3

/-- A fresh scheduler with a given concurrency ceiling. -/
def initScheduler (m : Nat) : Scheduler := ⟨m, [], 0⟩

/-- The number of tasks currently in running status. -/
def countRunning (s : Scheduler) : Nat :=
  s.tasks.countP (fun t => t.status == "running")

/-- Modelled from the spec: configuration validation of submit — a
non-empty resource identifier and at least one payment code or the
explicit no-payment marker. -/
def validConfig (c : TaskConfig) : Bool :=
  !c.url.isEmpty && (!c.giftCards.isEmpty || c.noPayment)

/-- Modelled from the spec: submit validates the configuration shape,
creates a task in pending status and returns its identity, or rejects the
configuration before any worker is involved. -/
def submit (s : Scheduler) (c : TaskConfig) : Except String (Nat × Scheduler) :=
  if validConfig c then
    Except.ok (s.nextId,
      { s with tasks := s.tasks ++ [⟨s.nextId, "pending", c.priority⟩],
               nextId := s.nextId + 1 })
  else Except.error "InvalidConfiguration"

/-- Updates the status of the first task with the given id. -/
def setStatus : List SchedTask → Nat → String → List SchedTask
  | [], _, _ => []
  | t :: ts, tid, st =>
    if t.id == tid then { t with status := st } :: ts
    else t :: setStatus ts tid st

/-- Modelled from the spec: start transitions a pending task to running
when the running count is below the ceiling, and to the queued wait state
otherwise; unknown ids fail with NotFound and non-pending tasks with
InvalidState. -/
def startTask (s : Scheduler) (tid : Nat) : Except String Scheduler :=
  match s.tasks.find? (fun t => t.id == tid) with
  | none => Except.error "NotFound"
  | some t =>
    if t.status == "pending" then
      if countRunning s < s.maxConcurrent then
        Except.ok { s with tasks := setStatus s.tasks tid "running" }
      else
        Except.ok { s with tasks := setStatus s.tasks tid "queued" }
    else Except.error "InvalidState"

/-- A submit or start request sent to the scheduler. -/
inductive SchedOp where
  | submitOp (c : TaskConfig)
  | startOp (tid : Nat)
deriving Repr

/-- Applies one request; failed requests leave the state unchanged. -/
def applySchedOp (s : Scheduler) (op : SchedOp) : Scheduler :=
  match op with
  | SchedOp.submitOp c =>
    match submit s c with
    | Except.ok (_, s2) => s2
    | Except.error _ => s
  | SchedOp.startOp tid =>
    match startTask s tid with
    | Except.ok s2 => s2
    | Except.error _ => s

/-- Applies a sequence of submit and start requests. -/
def applySchedOps (ops : List SchedOp) (s : Scheduler) : Scheduler :=
  ops.foldl applySchedOp s

theorem countP_setStatus_running_le (l : List SchedTask) (tid : Nat) :
    (setStatus l tid "running").countP (fun t => t.status == "running") ≤
      l.countP (fun t => t.status == "running") + 1 := by
  induction l with
  | nil => simp [setStatus]
  | cons t ts ih =>
    by_cases h : (t.id == tid) = true <;>
      by_cases hts : (t.status == "running") = true <;>
        simp [setStatus, h, hts, List.countP_cons] <;>
        omega

theorem countP_setStatus_queued_le (l : List SchedTask) (tid : Nat) :
    (setStatus l tid "queued").countP (fun t => t.status == "running") ≤
      l.countP (fun t => t.status == "running") := by
  induction l with
  | nil => simp [setStatus]
  | cons t ts ih =>
    by_cases h : (t.id == tid) = true <;>
      by_cases hts : (t.status == "running") = true <;>
        simp [setStatus, h, hts, List.countP_cons] <;>
        omega

theorem submit_ok_state (s : Scheduler) (c : TaskConfig) (x : Nat × Scheduler)
    (hok : submit s c = Except.ok x) :
    x.2 = { s with tasks := s.tasks ++ [⟨s.nextId, "pending", c.priority⟩],
                   nextId := s.nextId + 1 } := by
  unfold submit at hok
  by_cases hv : validConfig c = true
  · simp only [hv, if_true] at hok
    have h2 := Except.ok.inj hok
    rw [← h2]
  · simp [hv] at hok

theorem startTask_ok_state (s : Scheduler) (tid : Nat) (s2 : Scheduler)
    (hok : startTask s tid = Except.ok s2) :
    (countRunning s < s.maxConcurrent ∧
        s2 = { s with tasks := setStatus s.tasks tid "running" }) ∨
      s2 = { s with tasks := setStatus s.tasks tid "queued" } := by
  unfold startTask at hok
  cases hfind : s.tasks.find? (fun t => t.id == tid) with
  | none =>
    rw [hfind] at hok
    exact absurd hok (by simp)
  | some t =>
    rw [hfind] at hok
    by_cases h1 : (t.status == "pending") = true
    · by_cases h2 : countRunning s < s.maxConcurrent
      · simp only [h1, if_true, if_pos h2] at hok
        exact Or.inl ⟨h2, (Except.ok.inj hok).symm⟩
      · simp only [h1, if_true, if_neg h2] at hok
        exact Or.inr (Except.ok.inj hok).symm
    · simp [h1] at hok

theorem applySchedOp_invariant (s : Scheduler) (op : SchedOp)
    (h : countRunning s ≤ s.maxConcurrent) :
    countRunning (applySchedOp s op) ≤ (applySchedOp s op).maxConcurrent := by
  cases op with
  | submitOp c =>
    simp only [applySchedOp]
    cases hsub : submit s c with
    | error e => exact h
    | ok x =>
      show countRunning x.2 ≤ (x.2).maxConcurrent
      rw [submit_ok_state s c x hsub]
      simpa [countRunning, List.countP_append] using h
  | startOp tid =>
    simp only [applySchedOp]
    cases hst : startTask s tid with
    | error e => exact h
    | ok s2 =>
      rcases startTask_ok_state s tid s2 hst with ⟨h2, rfl⟩ | rfl
      · show (setStatus s.tasks tid "running").countP
            (fun t => t.status == "running") ≤ s.maxConcurrent
        have hle := countP_setStatus_running_le s.tasks tid
        simp only [countRunning] at h h2
        omega
      · show (setStatus s.tasks tid "queued").countP
            (fun t => t.status == "running") ≤ s.maxConcurrent
        have hle := countP_setStatus_queued_le s.tasks tid
        simp only [countRunning] at h
        omega

theorem applySchedOps_invariant :
    ∀ (ops : List SchedOp) (s : Scheduler), countRunning s ≤ s.maxConcurrent →
      countRunning (applySchedOps ops s) ≤ (applySchedOps ops s).maxConcurrent := by
  intro ops
  induction ops with
  | nil => intro s h; exact h
  | cons op rest ih =>
    intro s h
    exact ih (applySchedOp s op) (applySchedOp_invariant s op h)

theorem applySchedOp_max (s : Scheduler) (op : SchedOp) :
    (applySchedOp s op).maxConcurrent = s.maxConcurrent := by
  cases op with
  | submitOp c =>
    simp only [applySchedOp]
    cases hsub : submit s c with
    | error e => rfl
    | ok x =>
      show (x.2).maxConcurrent = s.maxConcurrent
      rw [submit_ok_state s c x hsub]
  | startOp tid =>
    simp only [applySchedOp]
    cases hst : startTask s tid with
    | error e => rfl
    | ok s2 =>
      rcases startTask_ok_state s tid s2 hst with ⟨_, rfl⟩ | rfl <;> rfl

theorem applySchedOps_max :
    ∀ (ops : List SchedOp) (s : Scheduler),
      (applySchedOps ops s).maxConcurrent = s.maxConcurrent := by
  intro ops
  induction ops with
  | nil => intro s; rfl
  | cons op rest ih =>
    intro s
    calc (applySchedOps (op :: rest) s).maxConcurrent
        = (applySchedOp s op).maxConcurrent := ih (applySchedOp s op)
      _ = s.maxConcurrent := applySchedOp_max s op

/-- C1: for every sequence of submit and start requests, the number of
tasks in running status never exceeds the configured concurrency ceiling,
whose default is 3. -/
theorem scheduler_running_le_maxConcurrent :
    (∀ (ops : List SchedOp) (m : Nat),
        countRunning (applySchedOps ops (initScheduler m)) ≤ m) ∧
      defaultMaxConcurrent = 3 := by
  constructor
  · intro ops m
    have h0 : countRunning (initScheduler m) ≤ (initScheduler m).maxConcurrent := by
      simp [countRunning, initScheduler]
    have h1 := applySchedOps_invariant ops (initScheduler m) h0
    have h2 := applySchedOps_max ops (initScheduler m)
    rw [h2] at h1
    exact h1
  · rfl

/-- C6: submit rejects invalid configurations with InvalidConfiguration
and otherwise appends exactly one pending task, returns its identity, and
starts nothing (the running count is unchanged). -/
theorem submit_contract (s : Scheduler) (c : TaskConfig) :
    (validConfig c = false →
        submit s c = Except.error "InvalidConfiguration") ∧
      (validConfig c = true →
        submit s c = Except.ok (s.nextId,
          { s with tasks := s.tasks ++ [⟨s.nextId, "pending", c.priority⟩],
                   nextId := s.nextId + 1 }) ∧
        countRunning
            { s with tasks := s.tasks ++ [⟨s.nextId, "pending", c.priority⟩],
                     nextId := s.nextId + 1 } = countRunning s) := by
  constructor
  · intro hv
    simp [submit, hv]
  · intro hv
    refine ⟨by simp [submit, hv], ?_⟩
    simp [countRunning, List.countP_append]

/-- Concrete evaluation of the submit contract: an empty resource
identifier is rejected, and a valid configuration yields one pending task
with no change to the running count. -/
theorem submit_contract_witness :
    submit (initScheduler defaultMaxConcurrent) ⟨"t1", "", [], false, 2⟩ =
        Except.error "InvalidConfiguration" ∧
      (submit (initScheduler defaultMaxConcurrent)
          ⟨"t1", "https://www.apple.com/uk/shop/buy-iphone",
            ["X7YVTGTLVR8FJ54Z"], false, 2⟩ =
          Except.ok ((initScheduler defaultMaxConcurrent).nextId,
            { initScheduler defaultMaxConcurrent with
                tasks := (initScheduler defaultMaxConcurrent).tasks ++
                  [⟨(initScheduler defaultMaxConcurrent).nextId, "pending", 2⟩],
                nextId := (initScheduler defaultMaxConcurrent).nextId + 1 }) ∧
        countRunning
            { initScheduler defaultMaxConcurrent with
                tasks := (initScheduler defaultMaxConcurrent).tasks ++
                  [⟨(initScheduler defaultMaxConcurrent).nextId, "pending", 2⟩],
                nextId := (initScheduler defaultMaxConcurrent).nextId + 1 } =
          countRunning (initScheduler defaultMaxConcurrent)) :=
  ⟨(submit_contract (initScheduler defaultMaxConcurrent)
      ⟨"t1", "", [], false, 2⟩).1 (by decide),
    (submit_contract (initScheduler defaultMaxConcurrent)
      ⟨"t1", "https://www.apple.com/uk/shop/buy-iphone",
        ["X7YVTGTLVR8FJ54Z"], false, 2⟩).2 (by decide)⟩

/- ===== Endpoint Pool (spec section 4.3, documented in src/unnamed/part_007) ===== -/

/-- Health state of a rotating endpoint. -/
inductive EndpointHealth where
  | available
  | bannedUntil (t : Nat)
  | exhausted
deriving Repr, DecidableEq

/-- Outcome of trying a payment instrument through an endpoint. -/
inductive GiftOutcome where
  | accepted
  | insufficientBalance
  | rejected
deriving Repr, DecidableEq

/-- A rotating network endpoint. -/
structure Endpoint where
  id : String
  health : EndpointHealth
  usage : Nat
deriving Repr, DecidableEq

/-- Modelled from the spec: the endpoint pool state (the backend proxy
pool service is not part of the source tree): the endpoints, the usage
records mapping instrument and endpoint to an outcome, the per-endpoint
usage ceiling and the ban cooldown. -/
structure EndpointPool where
  endpoints : List Endpoint
  records : List (String × String × GiftOutcome)
  usageCeiling : Nat
  cooldown : Nat
deriving Repr, DecidableEq

/-- The documented ban cooldown: a rejected endpoint enters a 24 hour
cooling period. -/
def banCooldown : Nat := 24 * 60 * 60

/-- The documented default usage ceiling: each endpoint serves at most two
gift cards. -/
def defaultGiftCardsPerIp : Nat := 2

/-- Whether a rejected outcome is recorded for this instrument through
this endpoint. -/
def rejectedFor (p : EndpointPool) (instr eid : String) : Bool :=
  p.records.any (fun r =>
    r.1 == instr && r.2.1 == eid && decide (r.2.2 = GiftOutcome.rejected))

/-- Whether a health state is usable now; bans expire lazily. -/
def healthEligible (h : EndpointHealth) (now : Nat) : Bool :=
  match h with
  | EndpointHealth.available => true
  | EndpointHealth.bannedUntil t => decide (t < now)
  | EndpointHealth.exhausted => false

/-- Whether an endpoint may serve this instrument now. -/
def eligibleEndpoint (p : EndpointPool) (now : Nat) (instr : String)
    (e : Endpoint) : Bool :=
  healthEligible e.health now && !(rejectedFor p instr e.id) &&
    decide (e.usage < p.usageCeiling)

/-- The load-spreading pick: the eligible endpoint of lowest usage, the
first one on ties. -/
def pickMinUsage (e : Endpoint) (es : List Endpoint) : Endpoint :=
  es.foldl (fun b x => if x.usage < b.usage then x else b) e

/-- Modelled from the spec: acquire selects an eligible endpoint of lowest
usage for the instrument, or nothing when the pool is exhausted. -/
def acquire (p : EndpointPool) (now : Nat) (instr : String) : Option Endpoint :=
  match p.endpoints.filter (eligibleEndpoint p now instr) with
  | [] => none
  | e :: es => some (pickMinUsage e es)

/-- Modelled from the spec: reportOutcome appends the outcome to the usage
record, bumps the usage counter, bans the endpoint for a cooldown on a
rejection, and exhausts it at the usage ceiling. -/
def reportOutcome (p : EndpointPool) (now : Nat) (instr eid : String)
    (outcome : GiftOutcome) : EndpointPool :=
  { p with
      records := p.records ++ [(instr, eid, outcome)],
      endpoints := p.endpoints.map (fun e =>
        if e.id == eid then
          { e with
              usage := e.usage + 1,
              health :=
                if outcome = GiftOutcome.rejected then
                  EndpointHealth.bannedUntil (now + p.cooldown)
                else if p.usageCeiling ≤ e.usage + 1 then
                  EndpointHealth.exhausted
                else e.health }
        else e) }

/-- Modelled from the spec: refresh merges new endpoints without touching
existing health state or records. -/
def refreshPool (p : EndpointPool) (newEndpoints : List Endpoint) : EndpointPool :=
  { p with
      endpoints := p.endpoints ++
        newEndpoints.filter (fun e => !(p.endpoints.any (fun e2 => e2.id == e.id))) }

/-- A state-changing pool operation. -/
inductive PoolOp where
  | report (now : Nat) (instr eid : String) (outcome : GiftOutcome)
  | refresh (eps : List Endpoint)
deriving Repr

/-- Applies one pool operation. -/
def applyPoolOp (p : EndpointPool) (op : PoolOp) : EndpointPool :=
  match op with
  | PoolOp.report now instr eid outcome => reportOutcome p now instr eid outcome
  | PoolOp.refresh eps => refreshPool p eps

/-- Applies a sequence of pool operations. -/
def applyPoolOps (ops : List PoolOp) (p : EndpointPool) : EndpointPool :=
  ops.foldl applyPoolOp p

theorem rejectedFor_applyPoolOp (p : EndpointPool) (op : PoolOp)
    (instr eid : String) (h : rejectedFor p instr eid = true) :
    rejectedFor (applyPoolOp p op) instr eid = true := by
  cases op with
  | report now instr2 eid2 outcome =>
    simp only [applyPoolOp, rejectedFor, reportOutcome, List.any_append]
    simp only [rejectedFor] at h
    simp [h]
  | refresh eps => exact h

theorem rejectedFor_applyPoolOps (ops : List PoolOp) :
    ∀ (p : EndpointPool) (instr eid : String), rejectedFor p instr eid = true →
      rejectedFor (applyPoolOps ops p) instr eid = true := by
  induction ops with
  | nil => intro p instr eid h; exact h
  | cons op rest ih =>
    intro p instr eid h
    exact ih (applyPoolOp p op) instr eid (rejectedFor_applyPoolOp p op instr eid h)

theorem pickMinUsage_mem (e : Endpoint) (es : List Endpoint) :
    pickMinUsage e es ∈ e :: es := by
  induction es generalizing e with
  | nil => simp [pickMinUsage]
  | cons x xs ih =>
    have he : pickMinUsage e (x :: xs) =
        pickMinUsage (if x.usage < e.usage then x else e) xs := rfl
    rw [he]
    rcases List.mem_cons.mp (ih (if x.usage < e.usage then x else e)) with h3 | h3
    · by_cases hc : x.usage < e.usage
      · rw [if_pos hc] at h3 ⊢
        rw [h3]
        exact List.mem_cons_of_mem _ (List.mem_cons_self x xs)
      · rw [if_neg hc] at h3 ⊢
        rw [h3]
        exact List.mem_cons_self e _
    · exact List.mem_cons_of_mem _ (List.mem_cons_of_mem _ h3)

theorem acquire_eligible (p : EndpointPool) (now : Nat) (instr : String)
    (e : Endpoint) (hacq : acquire p now instr = some e) :
    eligibleEndpoint p now instr e = true := by
  unfold acquire at hacq
  cases hfil : p.endpoints.filter (eligibleEndpoint p now instr) with
  | nil =>
    rw [hfil] at hacq
    exact absurd hacq (by simp)
  | cons x xs =>
    rw [hfil] at hacq
    have hpick := Option.some.inj hacq
    have hmem : pickMinUsage x xs ∈ p.endpoints.filter (eligibleEndpoint p now instr) := by
      rw [hfil]
      exact pickMinUsage_mem x xs
    rw [← hpick]
    exact List.of_mem_filter hmem

/-- C2: once a rejected outcome is recorded for an instrument through an
endpoint, no later acquire for that instrument returns that endpoint,
whatever pool operations happen in between; a rejection report records the
rejected outcome and bans the endpoint until now plus the cooldown. -/
theorem pool_rejected_excluded_and_banned (p : EndpointPool) (ops : List PoolOp)
    (now : Nat) (instr eid : String) (h : rejectedFor p instr eid = true) :
    (∀ e, acquire (applyPoolOps ops p) now instr = some e → e.id ≠ eid) ∧
      (∀ (q : EndpointPool) (tnow : Nat),
        rejectedFor (reportOutcome q tnow instr eid GiftOutcome.rejected)
          instr eid = true) ∧
      (∀ (q : EndpointPool) (tnow : Nat) (e : Endpoint),
        e ∈ (reportOutcome q tnow instr eid GiftOutcome.rejected).endpoints →
          e.id = eid →
          e.health = EndpointHealth.bannedUntil (tnow + q.cooldown)) := by
  refine ⟨?_, ?_, ?_⟩
  · intro e hacq heq
    have hrej := rejectedFor_applyPoolOps ops p instr eid h
    have helig := acquire_eligible (applyPoolOps ops p) now instr e hacq
    simp only [eligibleEndpoint, Bool.and_eq_true, Bool.not_eq_true'] at helig
    rw [heq] at helig
    rw [helig.1.2] at hrej
    exact Bool.false_ne_true hrej
  · intro q tnow
    simp [rejectedFor, reportOutcome, List.any_append]
  · intro q tnow e hmem heid
    simp only [reportOutcome] at hmem
    rcases List.mem_map.mp hmem with ⟨x, hx, rfl⟩
    by_cases hxe : (x.id == eid) = true
    · simp [hxe]
    · simp only [hxe, Bool.false_eq_true, if_false] at heid
      exact absurd heid (by simpa using hxe)

/-- Concrete evaluation of the endpoint exclusion theorem on a one
endpoint pool carrying a rejected record. -/
theorem pool_rejected_excluded_and_banned_witness :
    (∀ e, acquire (applyPoolOps []
        ⟨[⟨"ep1", EndpointHealth.available, 0⟩],
          [("card1", "ep1", GiftOutcome.rejected)], 2, banCooldown⟩) 100 "card1" =
          some e → e.id ≠ "ep1") ∧
      (∀ (q : EndpointPool) (tnow : Nat),
        rejectedFor (reportOutcome q tnow "card1" "ep1" GiftOutcome.rejected)
          "card1" "ep1" = true) ∧
      (∀ (q : EndpointPool) (tnow : Nat) (e : Endpoint),
        e ∈ (reportOutcome q tnow "card1" "ep1" GiftOutcome.rejected).endpoints →
          e.id = "ep1" →
          e.health = EndpointHealth.bannedUntil (tnow + q.cooldown)) :=
  pool_rejected_excluded_and_banned
    ⟨[⟨"ep1", EndpointHealth.available, 0⟩],
      [("card1", "ep1", GiftOutcome.rejected)], 2, banCooldown⟩
    [] 100 "card1" "ep1" (by decide)

/- ===== Task record invariant (spec section 3, part_006 progress table) ===== -/

/-- The observable fields of a task record the invariant speaks about. -/
structure TaskRec where
  status : String
  currentStep : Option String
  progress : Nat
deriving Repr, DecidableEq

/-- Modelled from the spec: the updates the scheduler and worker apply to
a task record over its lifetime (the backend task model is not part of the
source tree). -/
inductive TaskUpdate where
  | toQueued
  | toRunning (step : String) (prog : Nat)
  | stepProgress (step : String) (prog : Nat)
  | complete
  | fail
  | cancelTask
deriving Repr

/-- Modelled from the spec: applying one lifecycle update.  Completion
forces progress 100 and clears the step; failure and cancellation clear
the step; step updates only apply to a running task. -/
def applyUpdate (t : TaskRec) (u : TaskUpdate) : TaskRec :=
  match u with
  | TaskUpdate.toQueued =>
    if t.status == "pending" then { t with status := "queued" } else t
  | TaskUpdate.toRunning step prog =>
    if t.status == "pending" || t.status == "queued" then
      { status := "running", currentStep := some step, progress := prog }
    else t
  | TaskUpdate.stepProgress step prog =>
    if t.status == "running" then
      { t with currentStep := some step, progress := max t.progress prog }
    else t
  | TaskUpdate.complete =>
    if t.status == "running" then
      { status := "completed", currentStep := none, progress := 100 }
    else t
  | TaskUpdate.fail =>
    { status := "failed", currentStep := none, progress := t.progress }
  | TaskUpdate.cancelTask =>
    { status := "cancelled", currentStep := none, progress := t.progress }

/-- A freshly submitted task record. -/
def initialTaskRec : TaskRec := ⟨"pending", none, 0⟩

/-- The claimed invariant: completed implies progress 100, and the current
step is present exactly when the task is running. -/
def taskRecInv (t : TaskRec) : Bool :=
  (!(t.status == "completed") || (t.progress == 100)) &&
    (t.currentStep.isSome == (t.status == "running"))

theorem applyUpdate_inv (t : TaskRec) (u : TaskUpdate)
    (h : taskRecInv t = true) : taskRecInv (applyUpdate t u) = true := by
  simp only [taskRecInv, Bool.and_eq_true, Bool.or_eq_true,
    Bool.not_eq_true'] at h
  obtain ⟨h1, h2⟩ := h
  cases u with
  | toQueued =>
    by_cases hc : (t.status == "pending") = true
    · have hst : t.status = "pending" := by simpa using hc
      simp [applyUpdate, hc, taskRecInv, hst] at h2 ⊢
      simpa [hst] using h2
    · simp only [applyUpdate, hc, Bool.false_eq_true, if_false]
      simp [taskRecInv, h2]
      rcases h1 with h1 | h1
      · left; simpa using h1
      · right; simpa using h1
  | toRunning step prog =>
    by_cases hc : (t.status == "pending" || t.status == "queued") = true
    · simp [applyUpdate, hc, taskRecInv]
    · simp only [applyUpdate, hc, Bool.false_eq_true, if_false]
      simp [taskRecInv, h2]
      rcases h1 with h1 | h1
      · left; simpa using h1
      · right; simpa using h1
  | stepProgress step prog =>
    by_cases hc : (t.status == "running") = true
    · have hst : t.status = "running" := by simpa using hc
      simp [applyUpdate, hc, taskRecInv, hst]
    · simp only [applyUpdate, hc, Bool.false_eq_true, if_false]
      simp [taskRecInv, h2]
      rcases h1 with h1 | h1
      · left; simpa using h1
      · right; simpa using h1
  | complete =>
    by_cases hc : (t.status == "running") = true
    · simp [applyUpdate, hc, taskRecInv]
    · simp only [applyUpdate, hc, Bool.false_eq_true, if_false]
      simp [taskRecInv, h2]
      rcases h1 with h1 | h1
      · left; simpa using h1
      · right; simpa using h1
  | fail => simp [applyUpdate, taskRecInv]
  | cancelTask => simp [applyUpdate, taskRecInv]

theorem foldl_applyUpdate_inv :
    ∀ (us : List TaskUpdate) (t : TaskRec), taskRecInv t = true →
      taskRecInv (us.foldl applyUpdate t) = true := by
  intro us
  induction us with
  | nil => intro t h; exact h
  | cons u rest ih =>
    intro t h
    exact ih (applyUpdate t u) (applyUpdate_inv t u h)

/-- C5: at every point of a task lifetime — after any sequence of
lifecycle updates applied to a fresh task — a completed task has progress
100, and the current step is non-null exactly when the task is running. -/
theorem task_record_invariant (us : List TaskUpdate) :
    taskRecInv (us.foldl applyUpdate initialTaskRec) = true :=
  foldl_applyUpdate_inv us initialTaskRec (by decide)

/- ===== Event taxonomy (part_000 initWebSocket, services/websocket.js) ===== -/

/-- The event sink taxonomy of the specification. -/
def specEventTaxonomy : List String :=
  ["task_created", "task_update", "task_log", "gift_card_required",
   "insufficient_balance", "gift_card_error", "gift_card_success"]

/-- The task-correlated socket events the test page registers handlers
for; each handler checks the task id of the payload. -/
def testPageTaskEvents : List String :=
  ["task_update", "task_log", "gift_card_required", "insufficient_balance",
   "gift_card_error", "gift_card_success"]

/-- The task events the websocket service registers handlers for. -/
def wsServiceTaskEvents : List String :=
  ["task_created", "task_update", "task_status_update", "step_update",
   "task_log", "prompt_required", "task_snapshot", "task_deleted"]

/-- The taxonomy extended with the task event kinds the websocket service
of the source consumes beyond the specified seven. -/
def extendedEventTaxonomy : List String :=
  specEventTaxonomy ++
    ["task_status_update", "step_update", "prompt_required", "task_snapshot",
     "task_deleted"]

/-- C7 counterexample: the websocket service of the source consumes the
task-correlated event kinds task_status_update and step_update, which are
absent from the seven kind taxonomy of the specification. -/
theorem event_taxonomy_counterexample :
    "task_status_update" ∈ wsServiceTaskEvents ∧
      "task_status_update" ∉ specEventTaxonomy ∧
      "step_update" ∈ wsServiceTaskEvents ∧
      "step_update" ∉ specEventTaxonomy := by
  refine ⟨by decide, by decide, by decide, by decide⟩

/-- Modelled from the spec and the consumer handlers of the source: the
events the core emits for a task, with their payload fields (the backend
emitter is not part of the source tree). -/
inductive CoreEvent where
  | taskCreated (taskId : String)
  | taskUpdate (taskId status : String) (step : Option String) (progress : Nat)
  | taskLog (taskId level message : String)
  | giftCardRequired (taskId : String)
  | insufficientBalance (taskId remainingAmount currency : String)
  | giftCardError (taskId errorMessage : String)
  | giftCardSuccess (taskId message : String)
  | taskStatusUpdate (taskId status message : String) (progress : Nat)
  | stepUpdate (taskId step message : String) (progress : Nat)
  | promptRequired (taskId promptKind : String)
  | taskSnapshot (taskId : String)
  | taskDeleted (taskId : String)
deriving Repr, DecidableEq

/-- The wire name of an event. -/
def kindOf : CoreEvent → String
  | CoreEvent.taskCreated _ => "task_created"
  | CoreEvent.taskUpdate _ _ _ _ => "task_update"
  | CoreEvent.taskLog _ _ _ => "task_log"
  | CoreEvent.giftCardRequired _ => "gift_card_required"
  | CoreEvent.insufficientBalance _ _ _ => "insufficient_balance"
  | CoreEvent.giftCardError _ _ => "gift_card_error"
  | CoreEvent.giftCardSuccess _ _ => "gift_card_success"
  | CoreEvent.taskStatusUpdate _ _ _ _ => "task_status_update"
  | CoreEvent.stepUpdate _ _ _ _ => "step_update"
  | CoreEvent.promptRequired _ _ => "prompt_required"
  | CoreEvent.taskSnapshot _ => "task_snapshot"
  | CoreEvent.taskDeleted _ => "task_deleted"

/-- The task identity every event carries. -/
def eventTaskId : CoreEvent → String
  | CoreEvent.taskCreated i => i
  | CoreEvent.taskUpdate i _ _ _ => i
  | CoreEvent.taskLog i _ _ => i
  | CoreEvent.giftCardRequired i => i
  | CoreEvent.insufficientBalance i _ _ => i
  | CoreEvent.giftCardError i _ => i
  | CoreEvent.giftCardSuccess i _ => i
  | CoreEvent.taskStatusUpdate i _ _ _ => i
  | CoreEvent.stepUpdate i _ _ _ => i
  | CoreEvent.promptRequired i _ => i
  | CoreEvent.taskSnapshot i => i
  | CoreEvent.taskDeleted i => i

/-- The payload field names of an event. -/
def payloadFields : CoreEvent → List String
  | CoreEvent.taskCreated _ => ["task_id"]
  | CoreEvent.taskUpdate _ _ _ _ => ["task_id", "status", "step", "progress"]
  | CoreEvent.taskLog _ _ _ => ["task_id", "level", "message"]
  | CoreEvent.giftCardRequired _ => ["task_id"]
  | CoreEvent.insufficientBalance _ _ _ =>
    ["task_id", "remaining_amount", "currency"]
  | CoreEvent.giftCardError _ _ => ["task_id", "error_message"]
  | CoreEvent.giftCardSuccess _ _ => ["task_id", "message"]
  | CoreEvent.taskStatusUpdate _ _ _ _ =>
    ["task_id", "status", "progress", "message"]
  | CoreEvent.stepUpdate _ _ _ _ => ["task_id", "step", "progress", "message"]
  | CoreEvent.promptRequired _ _ => ["task_id", "prompt_kind"]
  | CoreEvent.taskSnapshot _ => ["task_id"]
  | CoreEvent.taskDeleted _ => ["task_id"]

/-- C7 amended: every core event carries a task identity field and a kind
drawn from the extended taxonomy; every insufficient_balance event carries
both remaining_amount and currency; and every task event kind the source
consumes lies in the extended taxonomy. -/
theorem core_events_taxonomy (e : CoreEvent) :
    kindOf e ∈ extendedEventTaxonomy ∧
      "task_id" ∈ payloadFields e ∧
      (kindOf e = "insufficient_balance" →
        "remaining_amount" ∈ payloadFields e ∧ "currency" ∈ payloadFields e) ∧
      (∀ k ∈ testPageTaskEvents, k ∈ extendedEventTaxonomy) ∧
      (∀ k ∈ wsServiceTaskEvents, k ∈ extendedEventTaxonomy) := by
  cases e <;>
    exact ⟨by simp [kindOf, extendedEventTaxonomy, specEventTaxonomy],
      by simp [payloadFields],
      by simp [kindOf, payloadFields],
      by decide, by decide⟩

/-- Concrete evaluation of the event taxonomy theorem on an insufficient
balance event. -/
theorem core_events_taxonomy_witness :
    kindOf (CoreEvent.insufficientBalance "task_42" "10.50" "£") ∈
        extendedEventTaxonomy ∧
      ("remaining_amount" ∈
          payloadFields (CoreEvent.insufficientBalance "task_42" "10.50" "£") ∧
        "currency" ∈
          payloadFields (CoreEvent.insufficientBalance "task_42" "10.50" "£")) :=
  ⟨(core_events_taxonomy (CoreEvent.insufficientBalance "task_42" "10.50" "£")).1,
    (core_events_taxonomy
      (CoreEvent.insufficientBalance "task_42" "10.50" "£")).2.2.1 (by decide)⟩

/- ===== Prompt Correlator (spec section 4.4) ===== -/

/-- A pending prompt: a reason and a creation timestamp. -/
structure PromptRec where
  reason : String
  createdAt : Nat
deriving Repr, DecidableEq

/-- Modelled from the spec: the prompt correlator state, prompts keyed by
task identity (the backend correlator is not part of the source tree). -/
structure Correlator where
  pending : List (String × PromptRec)
deriving Repr, DecidableEq

/-- Modelled from the spec: raise stores a prompt under the task id,
replacing any prior unresolved prompt of that task. -/
def raisePrompt (c : Correlator) (taskId : String) (pr : PromptRec) : Correlator :=
  ⟨(taskId, pr) :: c.pending.filter (fun q => !(q.1 == taskId))⟩

/-- Modelled from the spec: resolve delivers the data to the suspended
worker and clears the prompt when one is pending for the task id,
returning true; otherwise it returns false and changes nothing. -/
def resolve (c : Correlator) (taskId : String) (data : List String) :
    Bool × Correlator :=
  match c.pending.find? (fun pr => pr.1 == taskId) with
  | some _ => (true, ⟨c.pending.filter (fun pr => !(pr.1 == taskId))⟩)
  | none => (false, c)

/-- C8: resolve on a task id with no pending prompt returns false and
leaves the correlator state unchanged. -/
theorem resolve_stale_noop (c : Correlator) (taskId : String)
    (data : List String) (h : ∀ pr ∈ c.pending, pr.1 ≠ taskId) :
    resolve c taskId data = (false, c) := by
  unfold resolve
  have hfind : c.pending.find? (fun pr => pr.1 == taskId) = none := by
    apply List.find?_eq_none.mpr
    intro pr hpr
    simpa using h pr hpr
  rw [hfind]

/-- Concrete evaluation of the stale resolve theorem: resolving a task id
with no pending prompt is a no-op returning false. -/
theorem resolve_stale_noop_witness :
    resolve ⟨[("task_1", ⟨"gift_card_required", 5⟩)]⟩ "task_2" ["CODE"] =
      (false, ⟨[("task_1", ⟨"gift_card_required", 5⟩)]⟩) :=
  resolve_stale_noop ⟨[("task_1", ⟨"gift_card_required", 5⟩)]⟩ "task_2" ["CODE"]
    (by decide)
